import Mathlib

/-!
Verification of the ChebConv layer (Chebyshev spectral graph convolution,
`python/dgl/nn/pytorch/conv/chebconv.py`).

The layer's forward pass is embedded shallowly:

* a graph is a node count, a directed edge list (source, destination) and the
  per-component node counts of a batched graph;
* a feature tensor of shape (N, D) is a list of N rows, each a list of D reals;
* torch elementwise operations with last-dimension broadcasting are embedded
  as `rowBc` / `matOp`; `th.cat(-, 1)` is rowwise append;
* the DGL message-passing primitive `update_all(copy_u, sum)` is `copyUSum`;
* `graph.local_scope()` together with the mutable node-data store `ndata` is
  embedded by explicit store passing (`NodeStore`, `localScope`);
* the external eigenvalue estimator `dgl.laplacian_lambda_max` is a function
  parameter that may fail; `dgl_warning` is a boolean flag in the result;
* `torch.Tensor(n)` (constructor called with an integer) is an uninitialized
  tensor of shape (n,): its contents are a parameter `junk`.
-/

namespace DGLCheb

noncomputable section

/-- Row-major real matrix: one list (row) of features per node. -/
abbrev Mat := List (List ℝ)

/-- Modelled from the spec: the graph collaborator (spec section 6) — an opaque
structure with nodes, directed edges, per-node in-degree query, and batch
membership given by the node count of each component graph of the batch. -/
structure DGLGraph where
  numNodes : ℕ
  edges : List (ℕ × ℕ)
  batchNumNodes : List ℕ

/-- Wellformedness of a graph: the batch component sizes add up to the node
count and every edge endpoint is a valid node id. -/
def DGLGraph.Wf (g : DGLGraph) : Prop :=
  g.batchNumNodes.sum = g.numNodes ∧ ∀ e ∈ g.edges, e.1 < g.numNodes ∧ e.2 < g.numNodes

instance (g : DGLGraph) : Decidable g.Wf := by
  unfold DGLGraph.Wf; infer_instance

/-- Modelled from the spec: the per-node in-degree query `graph.in_degrees()`
(spec section 6, graph collaborator (a)): the in-degree of node v is the
number of edges whose destination is v. -/
def inDegrees (g : DGLGraph) : List ℕ :=
  (List.range g.numNodes).map (fun v => (g.edges.filter (fun e => e.2 == v)).length)

/-- Degree-normalization vector of the forward pass, shape (N, 1):
`th.pow(graph.in_degrees().float().clamp(min=1), -0.5).unsqueeze(-1)`. -/
noncomputable def dInvsqrtList (g : DGLGraph) : Mat :=
  (inDegrees g).map (fun d => [((max d 1 : ℕ) : ℝ) ^ (-(1 / 2 : ℝ))])

/-- Elementwise combination of two rows with torch last-dimension
broadcasting: a length-1 row is broadcast against the other row. -/
def rowBc (f : ℝ → ℝ → ℝ) (ra rb : List ℝ) : List ℝ :=
  if ra.length = 1 then rb.map (f (ra.headD 0))
  else if rb.length = 1 then ra.map (fun a => f a (rb.headD 0))
  else List.zipWith f ra rb

/-- Elementwise combination of two matrices (torch binary op on (N, d) and
(N, 1) or (N, d) operands). -/
def matOp (f : ℝ → ℝ → ℝ) (a b : Mat) : Mat := List.zipWith (rowBc f) a b

/-- Map a scalar function over every entry of a matrix (torch op with a
python scalar, such as `x * 2` or `x - 1`). -/
def matMapScalar (f : ℝ → ℝ) (a : Mat) : Mat := a.map (fun r => r.map f)

/-- Concatenation along the feature axis: `th.cat((a, b), 1)`. -/
def catF (a b : Mat) : Mat := List.zipWith (fun ra rb => ra ++ rb) a b

/-- Modelled from the spec: the message-passing primitive
`graph.update_all(fn.copy_u(h, m), fn.sum(m, h))` (spec sections 4 and 6):
each source node's row is copied along every outgoing edge and every
destination node sums, entry by entry, the rows arriving on its incoming
edges (zero when no edge arrives). -/
def copyUSum (g : DGLGraph) (h : Mat) : Mat :=
  (List.range g.numNodes).map (fun v =>
    (List.range ((h.headD []).length)).map (fun j =>
      ((g.edges.filter (fun e => e.2 == v)).map (fun e => (h.getD e.1 []).getD j 0)).sum))

/-- Inner function `unnLaplacian` of `ChebConv.forward`:
`graph.ndata[h] = feat * D_invsqrt; update_all(copy_u, sum); return pop * D_invsqrt`. -/
def unnLaplacian (feat dInv : Mat) (g : DGLGraph) : Mat :=
  matOp (fun a b => a * b) (copyUSum g (matOp (fun a b => a * b) feat dInv)) dInv

/-- Form of the `lambda_max` argument: a plain python list, a 1-D tensor of
shape (B,), or a 2-D tensor of shape (B, 1). -/
inductive LambdaMax where
  | list (l : List ℝ)
  | tensor1 (l : List ℝ)
  | tensor2 (rows : Mat)

/-- A torch tensor that is either 1-D or 2-D (the shapes reaching the
lambda-max normalization code). -/
inductive LTensor where
  | t1 (l : List ℝ)
  | t2 (rows : Mat)

/-- Step `if isinstance(lambda_max, list): lambda_max = th.Tensor(lambda_max)`:
a plain list is wrapped into a 1-D tensor, tensors pass through. -/
def lmaxToTensor : LambdaMax → LTensor
  | .list l => .t1 l
  | .tensor1 l => .t1 l
  | .tensor2 r => .t2 r

/-- Step `if lambda_max.dim() == 1: lambda_max = lambda_max.unsqueeze(-1)`:
a (B,) tensor gets a trailing dimension, a (B, 1) tensor passes through. -/
def unsqueezeIf1 : LTensor → Mat
  | .t1 l => l.map (fun x => [x])
  | .t2 r => r

/-- Combined normalization of a `lambda_max` argument to shape (B, 1). -/
def lmaxRows (lm : LambdaMax) : Mat := unsqueezeIf1 (lmaxToTensor lm)

/-- Modelled from the spec: the broadcast collaborator `dgl.broadcast_nodes`
(spec section 6): replicate each component graph's row across that graph's
nodes; a value tensor whose first dimension differs from the batch size is
an error. -/
def broadcastNodes (g : DGLGraph) (rows : Mat) : Option Mat :=
  if rows.length = g.batchNumNodes.length then
    some (((rows.zip g.batchNumNodes).map (fun p => List.replicate p.2 p.1)).flatten)
  else none

/-- Per-node rescaling `re_norm = 2. / lambda_max`, shape (N, 1). -/
def reNormRows (lmN : Mat) : Mat := lmN.map (fun r => r.map (fun x => 2 / x))

/-- Contents of `torch.Tensor(n)` (constructor applied to an integer): an
uninitialized 1-D tensor of shape (n,), with arbitrary entries `junk`. -/
def thTensorUninit (junk : ℕ → ℝ) (n : ℕ) : List ℝ := (List.range n).map junk

/-- First-order basis term `X_1 = - re_norm * unnLaplacian(X_0) + X_0 * (re_norm - 1)`. -/
def chebX1 (g : DGLGraph) (dInv reNorm X0 : Mat) : Mat :=
  matOp (fun a b => a + b)
    (matOp (fun a b => a * b) (matMapScalar (fun x => -x) reNorm) (unnLaplacian X0 dInv g))
    (matOp (fun a b => a * b) X0 (matMapScalar (fun x => x - 1) reNorm))

/-- Loop body term
`X_i = - 2 * re_norm * unnLaplacian(X_1) + X_1 * 2 * (re_norm - 1) - X_0`. -/
def chebStep (g : DGLGraph) (dInv reNorm X1 X0 : Mat) : Mat :=
  matOp (fun a b => a - b)
    (matOp (fun a b => a + b)
      (matOp (fun a b => a * b) (matMapScalar (fun x => -2 * x) reNorm) (unnLaplacian X1 dInv g))
      (matOp (fun a b => a * b) (matMapScalar (fun x => x * 2) X1) (matMapScalar (fun x => x - 1) reNorm)))
    X0

/-- The loop `for _ in range(2, k)` of `ChebConv.forward`, iterated a given
number of times on the state (Xt, X_1, X_0); after each step the history
slides forward  (X_1, X_0 = X_i, X_1). -/
def chebLoop (g : DGLGraph) (dInv reNorm : Mat) : ℕ → Mat × Mat × Mat → Mat × Mat × Mat
  | 0, st => st
  | n + 1, (Xt, X1, X0) =>
    let Xi := chebStep g dInv reNorm X1 X0
    chebLoop g dInv reNorm n (catF Xt Xi, Xi, X1)

/-- The concatenated Chebyshev basis Xt built by `ChebConv.forward`:
`Xt = X_0 = feat`, then for k greater than 1 the X_1 term and k - 2 loop
iterations, each appended along the feature axis. -/
def chebXt (k : ℕ) (g : DGLGraph) (feat dInv reNorm : Mat) : Mat :=
  if 1 < k then
    let X1 := chebX1 g dInv reNorm feat
    (chebLoop g dInv reNorm (k - 2) (catF feat X1, X1, feat)).1
  else feat

/-- Modelled from the spec: the Chebyshev basis sequence as the spec states it
(spec section 4, step 5): X_0 = feat, X_1 = -re_norm * unnLaplacian(X_0) +
X_0 * (re_norm - 1), and X_i = -2 * re_norm * unnLaplacian(X_im1) +
2 * (re_norm - 1) * X_im1 - X_im2 for i at least 2. -/
def chebBasis (g : DGLGraph) (dInv reNorm feat : Mat) : ℕ → Mat
  | 0 => feat
  | 1 => chebX1 g dInv reNorm feat
  | n + 2 => chebStep g dInv reNorm
      (chebBasis g dInv reNorm feat (n + 1)) (chebBasis g dInv reNorm feat n)

/-- Left fold of feature-axis concatenation over a list of matrices, in
order: the running concatenation of `ChebConv.forward`. -/
def catAll : List Mat → Mat
  | [] => []
  | x :: xs => xs.foldl catF x

/-- Configuration and parameters of a constructed ChebConv layer. -/
structure ChebConv where
  inFeats : ℕ
  outFeats : ℕ
  k : ℕ
  activation : Option (ℝ → ℝ)
  weight : Mat
  bias : Option (List ℝ)

/-- Dot product of two rows. -/
def dot (a b : List ℝ) : ℝ := (List.zipWith (fun x y => x * y) a b).sum

/-- One row of `nn.Linear`: y = W x + b, with one output entry per weight
row, plus the optional bias. -/
def linearApply (W : Mat) (b : Option (List ℝ)) (x : List ℝ) : List ℝ :=
  match b with
  | some bv => List.zipWith (fun wrow bj => dot wrow x + bj) W bv
  | none => W.map (fun wrow => dot wrow x)

/-- Optional pointwise activation applied to the whole output tensor. -/
def applyAct (act : Option (ℝ → ℝ)) (m : Mat) : Mat :=
  match act with
  | some f => m.map (fun r => r.map f)
  | none => m

/-- Resolution of the `lambda_max` argument: pass a supplied value through;
otherwise call the external estimator, and on any failure emit a warning
(the boolean) and fall back to `th.Tensor(2)` — an uninitialized tensor of
shape (2,), not the scalar 2. -/
def resolveLambda (lambdaMax : Option LambdaMax) (est : DGLGraph → Except Unit (List ℝ))
    (junk : ℕ → ℝ) (g : DGLGraph) : LambdaMax × Bool :=
  match lambdaMax with
  | some lm => (lm, false)
  | none =>
    match est g with
    | Except.ok l => (LambdaMax.list l, false)
    | Except.error _ => (LambdaMax.tensor1 (thTensorUninit junk 2), true)

/-- Modelled from the spec: the mutable per-node data store `graph.ndata`
(spec sections 3 and 9), keyed by field name. -/
abbrev NodeStore := List (String × Mat)

/-- Assignment `graph.ndata[key] = v`. -/
def storeSet (s : NodeStore) (key : String) (v : Mat) : NodeStore :=
  (key, v) :: s.filter (fun p => p.1 != key)

/-- Lookup `graph.ndata[key]` (empty when absent). -/
def storeGet (s : NodeStore) (key : String) : Mat :=
  match s.find? (fun p => p.1 == key) with
  | some p => p.2
  | none => []

/-- Removal with lookup, `graph.ndata.pop(key)`. -/
def storePop (s : NodeStore) (key : String) : Mat × NodeStore :=
  (storeGet s key, s.filter (fun p => p.1 != key))

/-- Store-passing form of `unnLaplacian`, performing the actual node-data
writes of the source: set h, run message passing into h, pop h. -/
def unnLaplacianS (feat dInv : Mat) (g : DGLGraph) (s : NodeStore) : Mat × NodeStore :=
  let s1 := storeSet s "h" (matOp (fun a b => a * b) feat dInv)
  let s2 := storeSet s1 "h" (copyUSum g (storeGet s1 "h"))
  let p := storePop s2 "h"
  (matOp (fun a b => a * b) p.1 dInv, p.2)

/-- Store-passing form of the `range(2, k)` loop. -/
def chebLoopS (g : DGLGraph) (dInv reNorm : Mat) :
    ℕ → Mat × Mat × Mat → NodeStore → (Mat × Mat × Mat) × NodeStore
  | 0, st, s => (st, s)
  | n + 1, (Xt, X1, X0), s =>
    let p := unnLaplacianS X1 dInv g s
    let Xi := matOp (fun a b => a - b)
      (matOp (fun a b => a + b)
        (matOp (fun a b => a * b) (matMapScalar (fun x => -2 * x) reNorm) p.1)
        (matOp (fun a b => a * b) (matMapScalar (fun x => x * 2) X1) (matMapScalar (fun x => x - 1) reNorm)))
      X0
    chebLoopS g dInv reNorm n (catF Xt Xi, Xi, X1) p.2

/-- Store-passing form of the basis construction of `ChebConv.forward`. -/
def chebXtS (k : ℕ) (g : DGLGraph) (feat dInv reNorm : Mat) (s : NodeStore) : Mat × NodeStore :=
  if 1 < k then
    let p := unnLaplacianS feat dInv g s
    let X1 := matOp (fun a b => a + b)
      (matOp (fun a b => a * b) (matMapScalar (fun x => -x) reNorm) p.1)
      (matOp (fun a b => a * b) feat (matMapScalar (fun x => x - 1) reNorm))
    let q := chebLoopS g dInv reNorm (k - 2) (catF feat X1, X1, feat) p.2
    (q.1.1, q.2)
  else (feat, s)

/-- Body of `ChebConv.forward` inside the `with graph.local_scope()` block:
degree normalization, lambda-max resolution and normalization, broadcast to
nodes, basis recurrence, linear projection and activation. The boolean in
the result records whether the fallback warning was emitted. -/
noncomputable def chebBody (layer : ChebConv) (g : DGLGraph) (feat : Mat)
    (lambdaMax : Option LambdaMax) (est : DGLGraph → Except Unit (List ℝ)) (junk : ℕ → ℝ)
    (s : NodeStore) : (Except Unit Mat × Bool) × NodeStore :=
  let dInv := dInvsqrtList g
  let r := resolveLambda lambdaMax est junk g
  match broadcastNodes g (lmaxRows r.1) with
  | none => ((Except.error (), r.2), s)
  | some lmN =>
    let reNorm := reNormRows lmN
    let p := chebXtS layer.k g feat dInv reNorm s
    ((Except.ok (applyAct layer.activation (p.1.map (linearApply layer.weight layer.bias))), r.2), p.2)

/-- Modelled from the spec: `with graph.local_scope()` (spec section 9) — run
the body on the node-data store and restore the store on every exit path. -/
def localScope (body : NodeStore → (Except Unit Mat × Bool) × NodeStore) (s : NodeStore) :
    (Except Unit Mat × Bool) × NodeStore :=
  ((body s).1, s)

/-- The full `ChebConv.forward`, store-passing form: the local-scope wrapper
around the body. -/
noncomputable def chebForwardS (layer : ChebConv) (g : DGLGraph) (feat : Mat)
    (lambdaMax : Option LambdaMax) (est : DGLGraph → Except Unit (List ℝ)) (junk : ℕ → ℝ)
    (s : NodeStore) : (Except Unit Mat × Bool) × NodeStore :=
  localScope (chebBody layer g feat lambdaMax est junk) s

/-- The value computed by `ChebConv.forward` (together with the warning flag),
run from an empty node-data store. -/
noncomputable def chebForward (layer : ChebConv) (g : DGLGraph) (feat : Mat)
    (lambdaMax : Option LambdaMax) (est : DGLGraph → Except Unit (List ℝ)) (junk : ℕ → ℝ) :
    Except Unit Mat × Bool :=
  (chebForwardS layer g feat lambdaMax est junk []).1

/-- Entry of a matrix at row v, column j (default 0 out of range). -/
def entryAt (m : Mat) (v j : ℕ) : ℝ := (m.getD v []).getD j 0

/-- Modelled from the spec: application of the symmetrically-normalized
adjacency operator (spec section 4, step 4): the result at node v and
feature j is Dinv v times the sum over all nodes u of the number of edges
from u to v times Dinv u times x u j. -/
def symNormAdjApply (g : DGLGraph) (dInv x : Mat) : Mat :=
  (List.range g.numNodes).map (fun v =>
    (List.range ((x.headD []).length)).map (fun j =>
      entryAt dInv v 0 * (∑ u ∈ Finset.range g.numNodes,
        ((g.edges.count (u, v) : ℝ)) * (entryAt dInv u 0 * entryAt x u j))))

/-- Shape predicate: m is a matrix of n rows, each of width d. -/
abbrev Shaped (n d : ℕ) (m : Mat) : Prop := m.length = n ∧ ∀ r ∈ m, r.length = d

/-- Wellformedness of a `lambda_max` argument for batch size B: B entries,
and (B, 1)-shaped in the 2-D tensor case. -/
def LambdaMax.Wf (B : ℕ) : LambdaMax → Prop
  | .list l => l.length = B
  | .tensor1 l => l.length = B
  | .tensor2 r => r.length = B ∧ ∀ row ∈ r, row.length = 1

/-- Wellformedness of the bias of a layer: when present it has one entry per
output feature. -/
def biasWf (layer : ChebConv) : Prop :=
  match layer.bias with
  | some bv => bv.length = layer.outFeats
  | none => True

/-- Closed form of the forward value: lambda resolution, broadcast, basis,
projection, activation, with the warning flag alongside. -/
def chebForwardModel (layer : ChebConv) (g : DGLGraph) (feat : Mat)
    (lambdaMax : Option LambdaMax) (est : DGLGraph → Except Unit (List ℝ)) (junk : ℕ → ℝ) :
    Except Unit Mat × Bool :=
  let r := resolveLambda lambdaMax est junk g
  match broadcastNodes g (lmaxRows r.1) with
  | none => (Except.error (), r.2)
  | some lmN =>
    (Except.ok (applyAct layer.activation
      ((chebXt layer.k g feat (dInvsqrtList g) (reNormRows lmN)).map
        (linearApply layer.weight layer.bias))), r.2)

lemma storeGet_storeSet (s : NodeStore) (key : String) (v : Mat) :
    storeGet (storeSet s key v) key = v := by
  simp [storeGet, storeSet, List.find?]

lemma unnLaplacianS_fst (feat dInv : Mat) (g : DGLGraph) (s : NodeStore) :
    (unnLaplacianS feat dInv g s).1 = unnLaplacian feat dInv g := by
  simp [unnLaplacianS, unnLaplacian, storePop, storeGet_storeSet]

lemma chebLoopS_fst (g : DGLGraph) (dInv reNorm : Mat) :
    ∀ (n : ℕ) (st : Mat × Mat × Mat) (s : NodeStore),
      (chebLoopS g dInv reNorm n st s).1 = chebLoop g dInv reNorm n st := by
  intro n
  induction n with
  | zero => intro st s; rfl
  | succ n ih =>
    intro st s
    obtain ⟨Xt, X1, X0⟩ := st
    simp only [chebLoopS, chebLoop, unnLaplacianS_fst, chebStep]
    exact ih _ _

lemma chebXtS_fst (k : ℕ) (g : DGLGraph) (feat dInv reNorm : Mat) (s : NodeStore) :
    (chebXtS k g feat dInv reNorm s).1 = chebXt k g feat dInv reNorm := by
  unfold chebXtS chebXt
  split
  · simp only [unnLaplacianS_fst, chebLoopS_fst, chebX1]
  · rfl

lemma chebBody_fst (layer : ChebConv) (g : DGLGraph) (feat : Mat)
    (lambdaMax : Option LambdaMax) (est : DGLGraph → Except Unit (List ℝ)) (junk : ℕ → ℝ)
    (s : NodeStore) :
    (chebBody layer g feat lambdaMax est junk s).1
      = chebForwardModel layer g feat lambdaMax est junk := by
  unfold chebBody chebForwardModel
  cases h : broadcastNodes g (lmaxRows (resolveLambda lambdaMax est junk g).1) with
  | none => simp [h]
  | some lmN => simp [h, chebXtS_fst]

lemma chebForward_eq (layer : ChebConv) (g : DGLGraph) (feat : Mat)
    (lambdaMax : Option LambdaMax) (est : DGLGraph → Except Unit (List ℝ)) (junk : ℕ → ℝ) :
    chebForward layer g feat lambdaMax est junk
      = chebForwardModel layer g feat lambdaMax est junk := by
  unfold chebForward chebForwardS localScope
  exact chebBody_fst layer g feat lambdaMax est junk []

lemma chebForwardS_eq (layer : ChebConv) (g : DGLGraph) (feat : Mat)
    (lambdaMax : Option LambdaMax) (est : DGLGraph → Except Unit (List ℝ)) (junk : ℕ → ℝ)
    (s : NodeStore) :
    chebForwardS layer g feat lambdaMax est junk s
      = (chebForward layer g feat lambdaMax est junk, s) := by
  unfold chebForwardS localScope
  refine Prod.ext ?_ rfl
  show (chebBody layer g feat lambdaMax est junk s).1 = _
  rw [chebBody_fst, chebForward_eq]

lemma chebLoop_spec (g : DGLGraph) (dInv reNorm feat : Mat) :
    ∀ (n m : ℕ) (Xt : Mat),
      chebLoop g dInv reNorm n
          (Xt, chebBasis g dInv reNorm feat (m + 1), chebBasis g dInv reNorm feat m)
        = (List.foldl catF Xt
            ((List.range n).map (fun i => chebBasis g dInv reNorm feat (m + 2 + i))),
           chebBasis g dInv reNorm feat (m + 1 + n), chebBasis g dInv reNorm feat (m + n)) := by
  intro n
  induction n with
  | zero => intro m Xt; simp [chebLoop]
  | succ n ih =>
    intro m Xt
    have hXi : chebStep g dInv reNorm (chebBasis g dInv reNorm feat (m + 1))
        (chebBasis g dInv reNorm feat m) = chebBasis g dInv reNorm feat (m + 2) := rfl
    simp only [chebLoop, hXi]
    rw [ih (m + 1) (catF Xt (chebBasis g dInv reNorm feat (m + 2)))]
    rw [List.range_succ_eq_map, List.map_cons, List.map_map, List.foldl_cons]
    have harg : ((fun i => chebBasis g dInv reNorm feat (m + 2 + i)) ∘ Nat.succ)
        = (fun i => chebBasis g dInv reNorm feat (m + 1 + 2 + i)) := by
      funext i
      have : m + 2 + (i + 1) = m + 1 + 2 + i := by omega
      simp [Function.comp, Nat.succ_eq_add_one, this]
    have h2 : m + 2 + 0 = m + 2 := rfl
    have h3 : m + 1 + 1 + n = m + 1 + (n + 1) := by omega
    have h4 : m + 1 + n = m + (n + 1) := by omega
    rw [harg, h2, h3, h4]

lemma chebXt_eq_catAll (k : ℕ) (g : DGLGraph) (feat dInv reNorm : Mat) (hk : 1 ≤ k) :
    chebXt k g feat dInv reNorm
      = catAll ((List.range k).map (chebBasis g dInv reNorm feat)) := by
  match k, hk with
  | 1, _ =>
    have h1 : (List.range 1).map (chebBasis g dInv reNorm feat) = [feat] := rfl
    rw [h1]
    rfl
  | n + 2, _ =>
    have hxt : chebXt (n + 2) g feat dInv reNorm
        = (chebLoop g dInv reNorm n
            (catF (chebBasis g dInv reNorm feat 0) (chebBasis g dInv reNorm feat 1),
             chebBasis g dInv reNorm feat (0 + 1), chebBasis g dInv reNorm feat 0)).1 := by
      unfold chebXt
      rw [if_pos (show 1 < n + 2 by omega)]
      simp only [Nat.add_sub_cancel]
      rfl
    rw [hxt, chebLoop_spec g dInv reNorm feat n 0]
    dsimp only
    simp only [List.range_succ_eq_map, List.map_cons, List.map_map, catAll, List.foldl_cons,
      Function.comp, Nat.succ_eq_add_one, Nat.zero_add]
    apply congrArg
    apply List.map_congr_left
    intro i _
    have hi : 2 + i = i + 1 + 1 := by omega
    rw [hi]
    simp [Function.comp, Nat.succ_eq_add_one]

/-- Claim C1: for every graph, feature tensor, and per-node rescaling
re_norm = 2 / lambda_max, the forward computation builds the basis terms by
the stated recurrence and concatenates them in order, sliding the two-term
history forward after each step: the loop state produces exactly the
sequence X_0 = feat, X_1, X_2, ... of the recurrence. -/
theorem chebXt_follows_recurrence (g : DGLGraph) (dInv lmN feat : Mat) (k : ℕ) (hk : 1 ≤ k) :
    chebXt k g feat dInv (reNormRows lmN)
      = catAll ((List.range k).map (chebBasis g dInv (reNormRows lmN) feat)) :=
  chebXt_eq_catAll k g feat dInv (reNormRows lmN) hk

/-- Witness for claim C1: the recurrence identity evaluated at k = 3 on a
concrete two-node path graph. -/
theorem chebXt_follows_recurrence_witness :
    1 ≤ 3 ∧ chebXt 3 ⟨2, [(0, 1)], [2]⟩ [[1], [0]] [[1], [1]] (reNormRows [[2], [2]])
      = catAll ((List.range 3).map
          (chebBasis ⟨2, [(0, 1)], [2]⟩ [[1], [1]] (reNormRows [[2], [2]]) [[1], [0]])) :=
  ⟨by decide, chebXt_follows_recurrence ⟨2, [(0, 1)], [2]⟩ [[1], [1]] [[2], [2]] [[1], [0]] 3 (by decide)⟩

lemma rowBc_singleton_right (f : ℝ → ℝ → ℝ) (r : List ℝ) (c : ℝ) :
    rowBc f r [c] = r.map (fun a => f a c) := by
  unfold rowBc
  by_cases h : r.length = 1
  · obtain ⟨a, rfl⟩ := List.length_eq_one.mp h
    simp
  · simp [h]

lemma rowBc_singleton_left (f : ℝ → ℝ → ℝ) (c : ℝ) (r : List ℝ) :
    rowBc f [c] r = r.map (f c) := by
  simp [rowBc]

lemma headD_pos {α : Type} (l : List α) (d : α) (h : 0 < l.length) : l.headD d = l[0] := by
  cases l with
  | nil => simp at h
  | cons a t => rfl

lemma entryAt_eq (m : Mat) (v j : ℕ) (hv : v < m.length) : entryAt m v j = (m[v]).getD j 0 := by
  unfold entryAt
  rw [List.getD_eq_getElem _ _ hv]

lemma row_singleton (m : Mat) (hm : ∀ r ∈ m, r.length = 1) (v : ℕ) (hv : v < m.length) :
    m[v] = [entryAt m v 0] := by
  have h1 : (m[v]).length = 1 := hm _ (List.getElem_mem hv)
  obtain ⟨c, hc⟩ := List.length_eq_one.mp h1
  rw [entryAt_eq m v 0 hv, hc]
  rfl

lemma filter_map_sum_eq_count (l : List (ℕ × ℕ)) (N v : ℕ) (f : ℕ → ℝ)
    (hl : ∀ e ∈ l, e.1 < N) :
    ((l.filter (fun e => e.2 == v)).map (fun e => f e.1)).sum
      = ∑ u ∈ Finset.range N, (l.count (u, v) : ℝ) * f u := by
  induction l with
  | nil => simp
  | cons e t ih =>
    have he1 : e.1 < N := hl e (List.mem_cons_self e t)
    have ht : ∀ a ∈ t, a.1 < N := fun a ha => hl a (List.mem_cons_of_mem e ha)
    have hsplit : ∀ u ∈ Finset.range N,
        (((e :: t).count (u, v) : ℕ) : ℝ) * f u
          = (t.count (u, v) : ℝ) * f u + (if (u, v) = e then (1 : ℝ) else 0) * f u := by
      intro u _
      rw [List.count_cons]
      by_cases h : (u, v) = e
      · simp [h.symm]
        push_cast
        ring
      · have hne : (e == (u, v)) = false := by
          simp [beq_iff_eq]
          exact fun hh => h hh.symm
        simp [hne, h]
    rw [Finset.sum_congr rfl hsplit, Finset.sum_add_distrib, ← ih ht]
    by_cases hev : e.2 = v
    · have hfe : (e.2 == v) = true := by simp [hev]
      have hsum2 : (∑ u ∈ Finset.range N, (if (u, v) = e then (1 : ℝ) else 0) * f u) = f e.1 := by
        have heq : ∀ u ∈ Finset.range N,
            (if (u, v) = e then (1 : ℝ) else 0) * f u = (if e.1 = u then f u else 0) := by
          intro u _
          by_cases h : (u, v) = e
          · rw [if_pos h, if_pos, one_mul]
            rw [← h]
          · rw [if_neg h, zero_mul, if_neg]
            intro hu
            apply h
            have : e = (u, v) := by
              apply Prod.ext
              · exact hu
              · exact hev
            exact this.symm
        rw [Finset.sum_congr rfl heq, Finset.sum_ite_eq]
        rw [if_pos (Finset.mem_range.mpr he1)]
      rw [hsum2]
      simp [List.filter_cons, hfe]
      ring
    · have hfe : (e.2 == v) = false := by simp [hev]
      have hsum2 : (∑ u ∈ Finset.range N, (if (u, v) = e then (1 : ℝ) else 0) * f u) = 0 := by
        apply Finset.sum_eq_zero
        intro u _
        rw [if_neg, zero_mul]
        intro h
        exact hev (congrArg Prod.snd h).symm
      rw [hsum2]
      simp [List.filter_cons, hfe]

/-- Claim C3: the internal unnLaplacian operation — multiply by D_invsqrt,
copy each source row along every outgoing edge, sum the incoming rows at
each destination, multiply by D_invsqrt again — equals applying the
symmetrically-normalized adjacency operator to x. -/
lemma matOp_getElem (f : ℝ → ℝ → ℝ) (a b : Mat) (i : ℕ)
    (hia : i < a.length) (hib : i < b.length) (hi : i < (matOp f a b).length) :
    (matOp f a b)[i] = rowBc f (a[i]) (b[i]) := by
  simp [matOp, List.getElem_zipWith]

lemma copyUSum_getElem (g : DGLGraph) (h : Mat) (v : ℕ)
    (hv : v < g.numNodes) (hv2 : v < (copyUSum g h).length) :
    (copyUSum g h)[v] = (List.range ((h.headD []).length)).map (fun j =>
      ((g.edges.filter (fun e => e.2 == v)).map (fun e => (h.getD e.1 []).getD j 0)).sum) := by
  simp [copyUSum]

lemma symNormAdjApply_getElem (g : DGLGraph) (dInv x : Mat) (v : ℕ)
    (hv : v < g.numNodes) (hv2 : v < (symNormAdjApply g dInv x).length) :
    (symNormAdjApply g dInv x)[v] = (List.range ((x.headD []).length)).map (fun j =>
      entryAt dInv v 0 * (∑ u ∈ Finset.range g.numNodes,
        ((g.edges.count (u, v) : ℝ)) * (entryAt dInv u 0 * entryAt x u j))) := by
  simp [symNormAdjApply]

theorem unnLaplacian_eq_symNormAdj (g : DGLGraph) (x dInv : Mat) (dw : ℕ)
    (hsrc : ∀ e ∈ g.edges, e.1 < g.numNodes)
    (hx : Shaped g.numNodes dw x) (hdi : Shaped g.numNodes 1 dInv) :
    unnLaplacian x dInv g = symNormAdjApply g dInv x := by
  obtain ⟨hxl, hxw⟩ := hx
  obtain ⟨hdl, hdw⟩ := hdi
  have hMl : (matOp (fun a b => a * b) x dInv).length = g.numNodes := by
    simp [matOp, hxl, hdl]
  have hMrow : ∀ u, u < g.numNodes →
      (matOp (fun a b => a * b) x dInv).getD u []
        = (x.getD u []).map (fun a => a * entryAt dInv u 0) := by
    intro u hu
    have hu1 : u < (matOp (fun a b => a * b) x dInv).length := by rw [hMl]; exact hu
    have hu2 : u < x.length := by rw [hxl]; exact hu
    have hu3 : u < dInv.length := by rw [hdl]; exact hu
    rw [List.getD_eq_getElem _ _ hu1, List.getD_eq_getElem _ _ hu2]
    rw [matOp_getElem _ _ _ _ hu2 hu3 hu1]
    rw [row_singleton dInv hdw u hu3, rowBc_singleton_right]
  have hcl : (copyUSum g (matOp (fun a b => a * b) x dInv)).length = g.numNodes := by
    simp [copyUSum]
  have hml2 : ∀ (f : ℝ → ℝ → ℝ) (a b : Mat), (matOp f a b).length = min a.length b.length := by
    intro f a b
    simp [matOp]
  have hul : (unnLaplacian x dInv g).length = g.numNodes := by
    unfold unnLaplacian
    rw [hml2, hcl, hdl, Nat.min_self]
  have hsl : (symNormAdjApply g dInv x).length = g.numNodes := by
    simp [symNormAdjApply]
  apply List.ext_getElem
  · rw [hul, hsl]
  intro v h1 h2
  have hv : v < g.numNodes := by rw [hul] at h1; exact h1
  have hN0 : 0 < g.numNodes := Nat.lt_of_le_of_lt (Nat.zero_le v) hv
  have hx0 : 0 < x.length := by rw [hxl]; exact hN0
  have hxw0 : (x.headD []).length = dw := by
    rw [headD_pos x [] hx0]
    exact hxw _ (List.getElem_mem hx0)
  have hM0 : 0 < (matOp (fun a b => a * b) x dInv).length := by rw [hMl]; exact hN0
  have hMw0 : ((matOp (fun a b => a * b) x dInv).headD []).length = dw := by
    rw [headD_pos _ [] hM0, ← List.getD_eq_getElem _ [] hM0, hMrow 0 hN0, List.length_map]
    rw [List.getD_eq_getElem _ _ hx0]
    exact hxw _ (List.getElem_mem hx0)
  have hvc : v < (copyUSum g (matOp (fun a b => a * b) x dInv)).length := by
    rw [hcl]; exact hv
  have hvd : v < dInv.length := by rw [hdl]; exact hv
  unfold unnLaplacian
  rw [matOp_getElem _ _ _ _ hvc hvd (by exact h1)]
  rw [copyUSum_getElem _ _ _ hv hvc]
  rw [symNormAdjApply_getElem _ _ _ _ hv h2]
  rw [row_singleton dInv hdw v hvd, rowBc_singleton_right, List.map_map]
  rw [hMw0, hxw0]
  apply List.map_congr_left
  intro j hj
  have hjw : j < dw := List.mem_range.mp hj
  have hmsg : ∀ e ∈ g.edges.filter (fun e => e.2 == v),
      ((matOp (fun a b => a * b) x dInv).getD e.1 []).getD j 0
        = entryAt x e.1 j * entryAt dInv e.1 0 := by
    intro e hef
    have he : e ∈ g.edges := List.mem_of_mem_filter hef
    have heu : e.1 < g.numNodes := hsrc e he
    have hexl : e.1 < x.length := by rw [hxl]; exact heu
    have hju : j < (x.getD e.1 []).length := by
      rw [List.getD_eq_getElem _ _ hexl]
      rw [hxw _ (List.getElem_mem hexl)]
      exact hjw
    rw [hMrow e.1 heu]
    rw [List.getD_eq_getElem _ _ (by simpa using hju), List.getElem_map]
    unfold entryAt
    rw [List.getD_eq_getElem _ _ hju]
  simp only [Function.comp_apply]
  rw [List.map_congr_left hmsg]
  rw [filter_map_sum_eq_count g.edges g.numNodes v
    (fun u => entryAt x u j * entryAt dInv u 0) hsrc]
  rw [mul_comm]
  congr 1
  apply Finset.sum_congr rfl
  intro u _
  ring

/-- Witness for claim C3: the equivalence evaluated on a concrete two-node
graph with one edge. -/
theorem unnLaplacian_eq_symNormAdj_witness :
    (∀ e ∈ ([(0, 1)] : List (ℕ × ℕ)), e.1 < 2)
    ∧ unnLaplacian [[1], [2]] [[1], [1]] ⟨2, [(0, 1)], [2]⟩
      = symNormAdjApply ⟨2, [(0, 1)], [2]⟩ [[1], [1]] [[1], [2]] :=
  ⟨by decide, unnLaplacian_eq_symNormAdj ⟨2, [(0, 1)], [2]⟩ [[1], [2]] [[1], [1]] 1
    (by decide) ⟨by decide, by decide⟩ ⟨by decide, by decide⟩⟩

lemma rpow_clamp_pos_le_one (d : ℕ) :
    0 < ((max d 1 : ℕ) : ℝ) ^ (-(1 / 2 : ℝ)) ∧ ((max d 1 : ℕ) : ℝ) ^ (-(1 / 2 : ℝ)) ≤ 1 := by
  have hb : (1 : ℝ) ≤ ((max d 1 : ℕ) : ℝ) := by
    have h := Nat.le_max_right d 1
    exact_mod_cast h
  constructor
  · exact Real.rpow_pos_of_pos (lt_of_lt_of_le one_pos hb) _
  · exact Real.rpow_le_one_of_one_le_of_nonpos hb (by norm_num)

/-- Claim C4: the degree-normalization entry of every node is
clamp(in_degree, min 1) to the power -1/2; the clamped base is at least one,
so the entry is a well-defined positive real (no division by zero, no NaN or
Inf) and at most one, isolated nodes included. -/
theorem dInvsqrt_pos_le_one (g : DGLGraph) (v : ℕ) (hv : v < g.numNodes) :
    0 < entryAt (dInvsqrtList g) v 0 ∧ entryAt (dInvsqrtList g) v 0 ≤ 1 := by
  have hv1 : v < (inDegrees g).length := by
    simpa [inDegrees] using hv
  have he : entryAt (dInvsqrtList g) v 0
      = ((max ((inDegrees g)[v]) 1 : ℕ) : ℝ) ^ (-(1 / 2 : ℝ)) := by
    simp [entryAt, dInvsqrtList, List.getD, List.getElem?_eq_getElem hv1]
  rw [he]
  exact rpow_clamp_pos_le_one _

/-- Witness for claim C4: a two-node graph whose node 0 is isolated
(in-degree 0); its normalization entry is still positive and finite. -/
theorem dInvsqrt_pos_le_one_witness :
    inDegrees ⟨2, [(0, 1)], [2]⟩ = [0, 1]
    ∧ (0 < entryAt (dInvsqrtList ⟨2, [(0, 1)], [2]⟩) 0 0
       ∧ entryAt (dInvsqrtList ⟨2, [(0, 1)], [2]⟩) 0 0 ≤ 1) :=
  ⟨by decide, dInvsqrt_pos_le_one ⟨2, [(0, 1)], [2]⟩ 0 (by decide)⟩

lemma matOp_length (f : ℝ → ℝ → ℝ) (a b : Mat) :
    (matOp f a b).length = min a.length b.length := by
  simp [matOp]

lemma rowBc_length_right_one (f : ℝ → ℝ → ℝ) (ra rb : List ℝ) (d : ℕ)
    (hb : rb.length = 1) (ha : ra.length = d) : (rowBc f ra rb).length = d := by
  obtain ⟨c, rfl⟩ := List.length_eq_one.mp hb
  rw [rowBc_singleton_right]
  simp [ha]

lemma rowBc_length_left_one (f : ℝ → ℝ → ℝ) (ra rb : List ℝ)
    (ha : ra.length = 1) : (rowBc f ra rb).length = rb.length := by
  obtain ⟨c, rfl⟩ := List.length_eq_one.mp ha
  rw [rowBc_singleton_left]
  simp

lemma rowBc_length_same (f : ℝ → ℝ → ℝ) (ra rb : List ℝ) (d : ℕ)
    (ha : ra.length = d) (hb : rb.length = d) : (rowBc f ra rb).length = d := by
  by_cases h1 : ra.length = 1
  · obtain ⟨c, rfl⟩ := List.length_eq_one.mp h1
    rw [rowBc_singleton_left]
    simp [hb]
  · by_cases h2 : rb.length = 1
    · exact absurd (by omega : ra.length = 1) h1
    · unfold rowBc
      rw [if_neg h1, if_neg h2]
      simp [List.length_zipWith, ha, hb]

lemma matOp_row_mem (f : ℝ → ℝ → ℝ) (a b : Mat) (r : List ℝ) (hr : r ∈ matOp f a b) :
    ∃ i, ∃ (hia : i < a.length), ∃ (hib : i < b.length), r = rowBc f (a[i]) (b[i]) := by
  obtain ⟨i, hi, hri⟩ := List.mem_iff_getElem.mp hr
  rw [matOp_length] at hi
  have hia : i < a.length := lt_of_lt_of_le hi (min_le_left _ _)
  have hib : i < b.length := lt_of_lt_of_le hi (min_le_right _ _)
  refine ⟨i, hia, hib, ?_⟩
  rw [← hri]
  simp [matOp, List.getElem_zipWith]

lemma matOp_shaped_r1 (f : ℝ → ℝ → ℝ) (a b : Mat) (n d : ℕ)
    (ha : Shaped n d a) (hb : Shaped n 1 b) : Shaped n d (matOp f a b) := by
  obtain ⟨hal, haw⟩ := ha
  obtain ⟨hbl, hbw⟩ := hb
  constructor
  · rw [matOp_length, hal, hbl, Nat.min_self]
  · intro r hr
    obtain ⟨i, hia, hib, rfl⟩ := matOp_row_mem f a b r hr
    exact rowBc_length_right_one f _ _ d (hbw _ (List.getElem_mem hib)) (haw _ (List.getElem_mem hia))

lemma matOp_shaped_l1 (f : ℝ → ℝ → ℝ) (a b : Mat) (n d : ℕ)
    (ha : Shaped n 1 a) (hb : Shaped n d b) : Shaped n d (matOp f a b) := by
  obtain ⟨hal, haw⟩ := ha
  obtain ⟨hbl, hbw⟩ := hb
  constructor
  · rw [matOp_length, hal, hbl, Nat.min_self]
  · intro r hr
    obtain ⟨i, hia, hib, rfl⟩ := matOp_row_mem f a b r hr
    rw [rowBc_length_left_one f _ _ (haw _ (List.getElem_mem hia))]
    exact hbw _ (List.getElem_mem hib)

lemma matOp_shaped_same (f : ℝ → ℝ → ℝ) (a b : Mat) (n d : ℕ)
    (ha : Shaped n d a) (hb : Shaped n d b) : Shaped n d (matOp f a b) := by
  obtain ⟨hal, haw⟩ := ha
  obtain ⟨hbl, hbw⟩ := hb
  constructor
  · rw [matOp_length, hal, hbl, Nat.min_self]
  · intro r hr
    obtain ⟨i, hia, hib, rfl⟩ := matOp_row_mem f a b r hr
    exact rowBc_length_same f _ _ d (haw _ (List.getElem_mem hia)) (hbw _ (List.getElem_mem hib))

lemma matMapScalar_shaped (f : ℝ → ℝ) (a : Mat) (n d : ℕ)
    (ha : Shaped n d a) : Shaped n d (matMapScalar f a) := by
  obtain ⟨hal, haw⟩ := ha
  constructor
  · simp [matMapScalar, hal]
  · intro r hr
    simp only [matMapScalar, List.mem_map] at hr
    obtain ⟨s, hs, rfl⟩ := hr
    simp [haw s hs]

lemma catF_shaped (a b : Mat) (n d1 d2 : ℕ)
    (ha : Shaped n d1 a) (hb : Shaped n d2 b) : Shaped n (d1 + d2) (catF a b) := by
  obtain ⟨hal, haw⟩ := ha
  obtain ⟨hbl, hbw⟩ := hb
  constructor
  · simp [catF, hal, hbl]
  · intro r hr
    obtain ⟨i, hi, hri⟩ := List.mem_iff_getElem.mp hr
    simp only [catF, List.length_zipWith] at hi
    have hia : i < a.length := lt_of_lt_of_le hi (min_le_left _ _)
    have hib : i < b.length := lt_of_lt_of_le hi (min_le_right _ _)
    rw [← hri]
    simp only [catF, List.getElem_zipWith, List.length_append]
    rw [haw _ (List.getElem_mem hia), hbw _ (List.getElem_mem hib)]

lemma copyUSum_shaped (g : DGLGraph) (h : Mat) (d : ℕ)
    (hh : Shaped g.numNodes d h) : Shaped g.numNodes d (copyUSum g h) := by
  obtain ⟨hhl, hhw⟩ := hh
  constructor
  · simp [copyUSum]
  · intro r hr
    simp only [copyUSum, List.mem_map, List.mem_range] at hr
    obtain ⟨v, hv, rfl⟩ := hr
    have hh0 : 0 < h.length := by
      rw [hhl]
      exact Nat.lt_of_le_of_lt (Nat.zero_le v) hv
    rw [List.length_map, List.length_range, headD_pos h [] hh0]
    exact hhw _ (List.getElem_mem hh0)

lemma unnLaplacian_shaped (g : DGLGraph) (x dInv : Mat) (d : ℕ)
    (hx : Shaped g.numNodes d x) (hd : Shaped g.numNodes 1 dInv) :
    Shaped g.numNodes d (unnLaplacian x dInv g) :=
  matOp_shaped_r1 _ _ _ _ _
    (copyUSum_shaped g _ d (matOp_shaped_r1 _ _ _ _ _ hx hd)) hd

lemma chebX1_shaped (g : DGLGraph) (dInv reNorm X0 : Mat) (d : ℕ)
    (hx : Shaped g.numNodes d X0) (hd : Shaped g.numNodes 1 dInv)
    (hr : Shaped g.numNodes 1 reNorm) : Shaped g.numNodes d (chebX1 g dInv reNorm X0) :=
  matOp_shaped_same _ _ _ _ _
    (matOp_shaped_l1 _ _ _ _ _ (matMapScalar_shaped _ _ _ _ hr)
      (unnLaplacian_shaped g X0 dInv d hx hd))
    (matOp_shaped_r1 _ _ _ _ _ hx (matMapScalar_shaped _ _ _ _ hr))

lemma chebStep_shaped (g : DGLGraph) (dInv reNorm X1 X0 : Mat) (d : ℕ)
    (h1 : Shaped g.numNodes d X1) (h0 : Shaped g.numNodes d X0)
    (hd : Shaped g.numNodes 1 dInv) (hr : Shaped g.numNodes 1 reNorm) :
    Shaped g.numNodes d (chebStep g dInv reNorm X1 X0) :=
  matOp_shaped_same _ _ _ _ _
    (matOp_shaped_same _ _ _ _ _
      (matOp_shaped_l1 _ _ _ _ _ (matMapScalar_shaped _ _ _ _ hr)
        (unnLaplacian_shaped g X1 dInv d h1 hd))
      (matOp_shaped_r1 _ _ _ _ _ (matMapScalar_shaped _ _ _ _ h1)
        (matMapScalar_shaped _ _ _ _ hr)))
    h0

lemma chebLoop_shaped (g : DGLGraph) (dInv reNorm : Mat) (d : ℕ)
    (hd : Shaped g.numNodes 1 dInv) (hr : Shaped g.numNodes 1 reNorm) :
    ∀ (niter : ℕ) (Xt X1 X0 : Mat) (w : ℕ),
      Shaped g.numNodes w Xt → Shaped g.numNodes d X1 → Shaped g.numNodes d X0 →
      Shaped g.numNodes (w + niter * d) (chebLoop g dInv reNorm niter (Xt, X1, X0)).1 := by
  intro niter
  induction niter with
  | zero =>
    intro Xt X1 X0 w ht h1 h0
    simpa [chebLoop] using ht
  | succ n ih =>
    intro Xt X1 X0 w ht h1 h0
    have hXi : Shaped g.numNodes d (chebStep g dInv reNorm X1 X0) :=
      chebStep_shaped g dInv reNorm X1 X0 d h1 h0 hd hr
    have hcat : Shaped g.numNodes (w + d) (catF Xt (chebStep g dInv reNorm X1 X0)) :=
      catF_shaped _ _ _ _ _ ht hXi
    have harith : w + d + n * d = w + (n + 1) * d := by ring
    have := ih (catF Xt (chebStep g dInv reNorm X1 X0)) (chebStep g dInv reNorm X1 X0) X1
      (w + d) hcat hXi h1
    rw [harith] at this
    simpa [chebLoop] using this

lemma chebXt_shaped (k : ℕ) (g : DGLGraph) (feat dInv reNorm : Mat) (d : ℕ)
    (hk : 1 ≤ k) (hx : Shaped g.numNodes d feat) (hd : Shaped g.numNodes 1 dInv)
    (hr : Shaped g.numNodes 1 reNorm) :
    Shaped g.numNodes (k * d) (chebXt k g feat dInv reNorm) := by
  by_cases h : 1 < k
  · obtain ⟨m, rfl⟩ : ∃ m, k = m + 2 := ⟨k - 2, by omega⟩
    unfold chebXt
    rw [if_pos h]
    have hX1 : Shaped g.numNodes d (chebX1 g dInv reNorm feat) :=
      chebX1_shaped g dInv reNorm feat d hx hd hr
    have hcat : Shaped g.numNodes (d + d) (catF feat (chebX1 g dInv reNorm feat)) :=
      catF_shaped _ _ _ _ _ hx hX1
    have hsub : m + 2 - 2 = m := by omega
    rw [hsub]
    have := chebLoop_shaped g dInv reNorm d hd hr m
      (catF feat (chebX1 g dInv reNorm feat)) (chebX1 g dInv reNorm feat) feat (d + d) hcat hX1 hx
    have harith : d + d + m * d = (m + 2) * d := by ring
    rw [harith] at this
    exact this
  · have hk1 : k = 1 := by omega
    subst hk1
    have h1 : chebXt 1 g feat dInv reNorm = feat := rfl
    rw [h1, Nat.one_mul]
    exact hx

lemma dInvsqrtList_shaped (g : DGLGraph) : Shaped g.numNodes 1 (dInvsqrtList g) := by
  constructor
  · simp [dInvsqrtList, inDegrees]
  · intro r hr
    simp only [dInvsqrtList, List.mem_map] at hr
    obtain ⟨d, _, rfl⟩ := hr
    rfl

lemma reNormRows_shaped (lmN : Mat) (n : ℕ) (hl : Shaped n 1 lmN) :
    Shaped n 1 (reNormRows lmN) := by
  obtain ⟨hll, hlw⟩ := hl
  constructor
  · simp [reNormRows, hll]
  · intro r hr
    simp only [reNormRows, List.mem_map] at hr
    obtain ⟨s, hs, rfl⟩ := hr
    simp [hlw s hs]

lemma lmaxRows_shaped (lm : LambdaMax) (B : ℕ) (hlm : LambdaMax.Wf B lm) :
    Shaped B 1 (lmaxRows lm) := by
  cases lm with
  | list l =>
    refine ⟨by simpa [lmaxRows, lmaxToTensor, unsqueezeIf1] using hlm, ?_⟩
    intro r hr
    simp only [lmaxRows, lmaxToTensor, unsqueezeIf1, List.mem_map] at hr
    obtain ⟨s, _, rfl⟩ := hr
    rfl
  | tensor1 l =>
    refine ⟨by simpa [lmaxRows, lmaxToTensor, unsqueezeIf1] using hlm, ?_⟩
    intro r hr
    simp only [lmaxRows, lmaxToTensor, unsqueezeIf1, List.mem_map] at hr
    obtain ⟨s, _, rfl⟩ := hr
    rfl
  | tensor2 r =>
    exact hlm

lemma broadcastNodes_shaped (g : DGLGraph) (rows : Mat) (w : ℕ)
    (hb : rows.length = g.batchNumNodes.length)
    (hw : ∀ r ∈ rows, r.length = w) (hs : g.batchNumNodes.sum = g.numNodes) :
    ∃ lmN, broadcastNodes g rows = some lmN ∧ Shaped g.numNodes w lmN := by
  unfold broadcastNodes
  rw [if_pos hb]
  refine ⟨_, rfl, ?_, ?_⟩
  · rw [List.length_flatten, List.map_map]
    have hlen : ((rows.zip g.batchNumNodes).map
        (List.length ∘ fun p => List.replicate p.2 p.1))
        = (rows.zip g.batchNumNodes).map Prod.snd := by
      apply List.map_congr_left
      intro p _
      simp
    rw [hlen, List.map_snd_zip _ _ (le_of_eq hb.symm), hs]
  · intro r hr
    rw [List.mem_flatten] at hr
    obtain ⟨chunk, hc, hrc⟩ := hr
    simp only [List.mem_map] at hc
    obtain ⟨p, hp, rfl⟩ := hc
    rw [List.eq_of_mem_replicate hrc]
    exact hw _ (List.of_mem_zip hp).1

lemma linearApply_length (W : Mat) (b : Option (List ℝ)) (x : List ℝ) (o : ℕ)
    (hW : W.length = o)
    (hb : match b with | some bv => bv.length = o | none => True) :
    (linearApply W b x).length = o := by
  cases b with
  | some bv =>
    simp only [linearApply, List.length_zipWith, hW]
    simp only at hb
    rw [hb, Nat.min_self]
  | none =>
    simp [linearApply, hW]

lemma applyAct_shaped (act : Option (ℝ → ℝ)) (m : Mat) (n d : ℕ)
    (hm : Shaped n d m) : Shaped n d (applyAct act m) := by
  cases act with
  | some f =>
    obtain ⟨hml, hmw⟩ := hm
    constructor
    · simp [applyAct, hml]
    · intro r hr
      simp only [applyAct, List.mem_map] at hr
      obtain ⟨s, hs, rfl⟩ := hr
      simp [hmw s hs]
  | none => exact hm

/-- Claim C7: for every valid input the concatenated basis Xt is X_0 through
X_{k-1} joined along the feature axis in that order with shape (N, k * D_in),
and the forward pass succeeds with an output of shape (N, out_feats). -/
theorem forward_output_shape (layer : ChebConv) (g : DGLGraph) (feat : Mat)
    (lm : LambdaMax) (est : DGLGraph → Except Unit (List ℝ)) (junk : ℕ → ℝ)
    (hwf : g.Wf) (hfeat : Shaped g.numNodes layer.inFeats feat) (hk : 1 ≤ layer.k)
    (hlm : LambdaMax.Wf g.batchNumNodes.length lm)
    (hW : layer.weight.length = layer.outFeats) (hbias : biasWf layer) :
    ∃ lmN, broadcastNodes g (lmaxRows lm) = some lmN
      ∧ Shaped g.numNodes (layer.k * layer.inFeats)
          (chebXt layer.k g feat (dInvsqrtList g) (reNormRows lmN))
      ∧ chebXt layer.k g feat (dInvsqrtList g) (reNormRows lmN)
          = catAll ((List.range layer.k).map
              (chebBasis g (dInvsqrtList g) (reNormRows lmN) feat))
      ∧ chebForward layer g feat (some lm) est junk
          = (Except.ok (applyAct layer.activation
              ((chebXt layer.k g feat (dInvsqrtList g) (reNormRows lmN)).map
                (linearApply layer.weight layer.bias))), false)
      ∧ Shaped g.numNodes layer.outFeats
          (applyAct layer.activation
            ((chebXt layer.k g feat (dInvsqrtList g) (reNormRows lmN)).map
              (linearApply layer.weight layer.bias))) := by
  obtain ⟨hrows, hroww⟩ := lmaxRows_shaped lm g.batchNumNodes.length hlm
  obtain ⟨lmN, hbn, hlmN⟩ := broadcastNodes_shaped g (lmaxRows lm) 1 hrows hroww hwf.1
  have hreN : Shaped g.numNodes 1 (reNormRows lmN) := reNormRows_shaped lmN g.numNodes hlmN
  have hdinv : Shaped g.numNodes 1 (dInvsqrtList g) := dInvsqrtList_shaped g
  have hXt : Shaped g.numNodes (layer.k * layer.inFeats)
      (chebXt layer.k g feat (dInvsqrtList g) (reNormRows lmN)) :=
    chebXt_shaped layer.k g feat (dInvsqrtList g) (reNormRows lmN) layer.inFeats
      hk hfeat hdinv hreN
  refine ⟨lmN, hbn, hXt, ?_, ?_, ?_⟩
  · exact chebXt_eq_catAll layer.k g feat (dInvsqrtList g) (reNormRows lmN) hk
  · rw [chebForward_eq]
    simp only [chebForwardModel, resolveLambda]
    rw [hbn]
  · apply applyAct_shaped
    constructor
    · rw [List.length_map]
      exact hXt.1
    · intro r hr
      simp only [List.mem_map] at hr
      obtain ⟨s, _, rfl⟩ := hr
      exact linearApply_length layer.weight layer.bias s layer.outFeats hW hbias

/-- Witness for claim C7: the shape and order facts evaluated on a concrete
k = 2 layer and a two-node graph. -/
theorem forward_output_shape_witness :
    ∃ lmN, broadcastNodes ⟨2, [(0, 1)], [2]⟩ (lmaxRows (LambdaMax.list [2])) = some lmN
      ∧ Shaped 2 (2 * 1)
          (chebXt 2 ⟨2, [(0, 1)], [2]⟩ [[1], [1]] (dInvsqrtList ⟨2, [(0, 1)], [2]⟩)
            (reNormRows lmN))
      ∧ chebXt 2 ⟨2, [(0, 1)], [2]⟩ [[1], [1]] (dInvsqrtList ⟨2, [(0, 1)], [2]⟩)
            (reNormRows lmN)
          = catAll ((List.range 2).map
              (chebBasis ⟨2, [(0, 1)], [2]⟩ (dInvsqrtList ⟨2, [(0, 1)], [2]⟩)
                (reNormRows lmN) [[1], [1]]))
      ∧ chebForward ⟨1, 1, 2, none, [[1, 1]], none⟩ ⟨2, [(0, 1)], [2]⟩ [[1], [1]]
            (some (LambdaMax.list [2])) (fun _ => Except.error ()) (fun _ => 0)
          = (Except.ok (applyAct none
              ((chebXt 2 ⟨2, [(0, 1)], [2]⟩ [[1], [1]] (dInvsqrtList ⟨2, [(0, 1)], [2]⟩)
                (reNormRows lmN)).map
                (linearApply [[1, 1]] none))), false)
      ∧ Shaped 2 1
          (applyAct none
            ((chebXt 2 ⟨2, [(0, 1)], [2]⟩ [[1], [1]] (dInvsqrtList ⟨2, [(0, 1)], [2]⟩)
              (reNormRows lmN)).map
              (linearApply [[1, 1]] none))) :=
  forward_output_shape ⟨1, 1, 2, none, [[1, 1]], none⟩ ⟨2, [(0, 1)], [2]⟩ [[1], [1]]
    (LambdaMax.list [2]) (fun _ => Except.error ()) (fun _ => 0)
    (by decide) ⟨by decide, by decide⟩ (by decide) rfl rfl trivial

/-- Claim C5: for a layer constructed with k = 1 the output depends only on
X_0 = feat through the linear projection and activation: no message passing
is performed, and two graphs with the same node set (same node count and
batch split) and the same in-degrees but different edges give identical
outputs. -/
theorem k1_edge_independent (layer : ChebConv) (g1 g2 : DGLGraph) (feat : Mat)
    (lm : LambdaMax) (est : DGLGraph → Except Unit (List ℝ)) (junk : ℕ → ℝ)
    (hk : layer.k = 1) (hn : g1.numNodes = g2.numNodes)
    (hb : g1.batchNumNodes = g2.batchNumNodes) (hd : inDegrees g1 = inDegrees g2) :
    chebForward layer g1 feat (some lm) est junk
      = chebForward layer g2 feat (some lm) est junk := by
  rw [chebForward_eq, chebForward_eq]
  unfold chebForwardModel
  simp only [resolveLambda]
  have hbn : broadcastNodes g1 (lmaxRows lm) = broadcastNodes g2 (lmaxRows lm) := by
    unfold broadcastNodes
    rw [hb]
  rw [hbn]
  cases h : broadcastNodes g2 (lmaxRows lm) with
  | none => rfl
  | some lmN =>
    have hx1 : chebXt layer.k g1 feat (dInvsqrtList g1) (reNormRows lmN) = feat := by
      rw [hk]; rfl
    have hx2 : chebXt layer.k g2 feat (dInvsqrtList g2) (reNormRows lmN) = feat := by
      rw [hk]; rfl
    simp only [hx1, hx2]

/-- Witness for claim C5: a concrete k = 1 layer evaluated on two two-node
graphs with equal in-degrees but different edges gives the same output. -/
theorem k1_edge_independent_witness :
    inDegrees ⟨2, [(0, 1)], [2]⟩ = inDegrees ⟨2, [(1, 1)], [2]⟩
    ∧ chebForward ⟨1, 1, 1, some (fun x => max x 0), [[1]], some [0]⟩ ⟨2, [(0, 1)], [2]⟩
        [[1], [0]] (some (LambdaMax.list [2])) (fun _ => Except.error ()) (fun _ => 0)
      = chebForward ⟨1, 1, 1, some (fun x => max x 0), [[1]], some [0]⟩ ⟨2, [(1, 1)], [2]⟩
        [[1], [0]] (some (LambdaMax.list [2])) (fun _ => Except.error ()) (fun _ => 0) :=
  ⟨by decide, k1_edge_independent _ _ _ _ _ _ _ rfl rfl rfl (by decide)⟩

/-- Claim C6: supplying lambda_max as a plain list of length B, as a 1-D
tensor of shape (B,), or as a tensor of shape (B, 1) all yield identical
outputs: the list is wrapped into a tensor and a 1-D tensor gets a trailing
dimension added, normalizing all three forms to shape (B, 1). -/
theorem lambda_forms_agree (layer : ChebConv) (g : DGLGraph) (feat : Mat)
    (est : DGLGraph → Except Unit (List ℝ)) (junk : ℕ → ℝ) (l : List ℝ) :
    chebForward layer g feat (some (LambdaMax.list l)) est junk
      = chebForward layer g feat (some (LambdaMax.tensor1 l)) est junk
    ∧ chebForward layer g feat (some (LambdaMax.list l)) est junk
      = chebForward layer g feat (some (LambdaMax.tensor2 (l.map (fun x => [x])))) est junk :=
  ⟨rfl, rfl⟩

/-- Claim C10: when lambda_max is supplied, the external eigenvalue estimator
is never invoked (the output is identical for any two estimators and any two
uninitialized-tensor contents) and no fallback warning is emitted. -/
theorem supplied_lambda_ignores_estimator (layer : ChebConv) (g : DGLGraph) (feat : Mat)
    (lm : LambdaMax) (est est2 : DGLGraph → Except Unit (List ℝ)) (junk junk2 : ℕ → ℝ) :
    chebForward layer g feat (some lm) est junk = chebForward layer g feat (some lm) est2 junk2
    ∧ (chebForward layer g feat (some lm) est junk).2 = false := by
  constructor
  · rfl
  · rw [chebForward_eq]
    simp only [chebForwardModel, resolveLambda]
    split <;> rfl

/-- Claim C8: forward has no side effects visible to the caller: the node-data
store observed after the call is the one passed in (the temporary field is
scoped), and the value returned is the pure function of the arguments. -/
theorem forward_store_unchanged (layer : ChebConv) (g : DGLGraph) (feat : Mat)
    (lambdaMax : Option LambdaMax) (est : DGLGraph → Except Unit (List ℝ)) (junk : ℕ → ℝ)
    (s : NodeStore) :
    (chebForwardS layer g feat lambdaMax est junk s).2 = s
    ∧ (chebForwardS layer g feat lambdaMax est junk s).1
        = chebForward layer g feat lambdaMax est junk := by
  rw [chebForwardS_eq]
  exact ⟨rfl, rfl⟩

/-- Claim C9: forward is a deterministic, stateless, idempotent pure function
of its arguments: a second call with identical arguments, run on whatever
store the first call left behind, returns the same value, and the store
after both calls is the original one. -/
theorem forward_idempotent (layer : ChebConv) (g : DGLGraph) (feat : Mat)
    (lambdaMax : Option LambdaMax) (est : DGLGraph → Except Unit (List ℝ)) (junk : ℕ → ℝ)
    (s : NodeStore) :
    (chebForwardS layer g feat lambdaMax est junk
        ((chebForwardS layer g feat lambdaMax est junk s).2)).1
      = (chebForwardS layer g feat lambdaMax est junk s).1
    ∧ (chebForwardS layer g feat lambdaMax est junk
        ((chebForwardS layer g feat lambdaMax est junk s).2)).2 = s := by
  simp only [chebForwardS_eq]
  exact ⟨trivial, trivial⟩

/-- Claim C2 (code bug): with lambda_max = None and a failing estimator the
code emits the warning but assigns `th.Tensor(2)` — an uninitialized tensor
of shape (2,), not the scalar 2 — so on a single-graph batch the subsequent
broadcast fails and the forward pass does not complete. -/
theorem lambda_fallback_breaks_forward (layer : ChebConv) (g : DGLGraph) (feat : Mat)
    (est : DGLGraph → Except Unit (List ℝ)) (junk : ℕ → ℝ)
    (hB : g.batchNumNodes.length = 1) (hest : est g = Except.error ()) :
    chebForward layer g feat none est junk = (Except.error (), true) := by
  rw [chebForward_eq]
  simp only [chebForwardModel, resolveLambda, hest]
  simp [lmaxRows, lmaxToTensor, unsqueezeIf1, broadcastNodes, thTensorUninit, hB]

/-- Witness for claim C2: a concrete single-graph batch with an estimator
that always fails; the forward pass errors out instead of completing with
lambda_max = 2. -/
theorem lambda_fallback_breaks_forward_witness :
    chebForward ⟨1, 1, 1, none, [[1]], none⟩ ⟨1, [], [1]⟩ [[1]] none
        (fun _ => Except.error ()) (fun _ => 0) = (Except.error (), true) :=
  lambda_fallback_breaks_forward _ _ _ _ _ rfl rfl

end

end DGLCheb
